import Mathlib

/-!
# UPES Hypervision: the selection state machine of `script.js`

A shallow embedding of the in-memory state (`appState`) of `script.js`, of the two
handlers that mutate it (`handleEnterPortal`, `handleOptionSelection`) and of the
values that `updateUI`, `updateOptionCard`, `checkIfAllFull` and `updateSummary`
derive from it.  DOM writes, timers and animations do not touch `appState`; of
them only the values the theorems speak about are kept (the error text, the
status badge, the highlighted card, the summary numbers).

JavaScript values are embedded as follows.

* Option counts are natural numbers (`0`, then `++`).
* Strings are Lean strings; `length` counts UTF-16 code units as JavaScript does.
  A JavaScript string with an unpaired surrogate has no Lean counterpart.
* `appState.userSelections` starts as the literal `{}`; it is an ordinary object
  whose prototype is `Object.prototype`.  A read `userSelections[k]` therefore
  also sees the properties inherited from `Object.prototype`, and a write to the
  key `__proto__` runs the inherited setter, which ignores a string value.
* `(count / 20) * 100` is binary64 arithmetic: both operations round to nearest,
  ties to even.
-/

namespace Hypervision

/-! ## Configuration -/

/-- The three values of the `data-option` attribute, the members of `CONFIG.OPTIONS`. -/
inductive OptionId where
  | optionA
  | optionB
  | optionC
  deriving DecidableEq, Repr

/-- The shape of the `CONFIG` object (the display names are not needed). -/
structure Config where
  MAX_SELECTIONS_PER_OPTION : Nat
  THRESHOLD_AVAILABLE : Nat
  THRESHOLD_FEW_SLOTS : Nat
  OPTIONS : List OptionId
  deriving DecidableEq, Repr

/-- The constant `CONFIG` of `script.js`. -/
def CONFIG : Config where
  MAX_SELECTIONS_PER_OPTION := 20
  THRESHOLD_AVAILABLE := 14
  THRESHOLD_FEW_SLOTS := 15
  OPTIONS := [OptionId.optionA, OptionId.optionB, OptionId.optionC]

/-! ## The state -/

/-- The object `appState.optionCounts`. -/
structure OptionCounts where
  optionA : Nat
  optionB : Nat
  optionC : Nat
  deriving DecidableEq, Repr

/-- The read `optionCounts[optionId]`. -/
def OptionCounts.get (c : OptionCounts) : OptionId → Nat
  | OptionId.optionA => c.optionA
  | OptionId.optionB => c.optionB
  | OptionId.optionC => c.optionC

/-- The update `optionCounts[optionId]++`. -/
def OptionCounts.increment (c : OptionCounts) : OptionId → OptionCounts
  | OptionId.optionA => { c with optionA := c.optionA + 1 }
  | OptionId.optionB => { c with optionB := c.optionB + 1 }
  | OptionId.optionC => { c with optionC := c.optionC + 1 }

/-- The own properties of the object `appState.userSelections`, in insertion order:
each maps a user name to the option id stored for it. -/
abbrev UserSelections := List (String × OptionId)

/-- The names of the properties of `Object.prototype`, which every object literal
inherits (ECMAScript 20.1.3 and Annex B.2.2). -/
def objectPrototypeKeys : List String :=
  ["constructor", "hasOwnProperty", "isPrototypeOf", "propertyIsEnumerable",
   "toLocaleString", "toString", "valueOf", "__proto__",
   "__defineGetter__", "__defineSetter__", "__lookupGetter__", "__lookupSetter__"]

/-- What a read `userSelections[k]` can evaluate to. -/
inductive JSValue where
  | undefined
  | optionId (o : OptionId)
  | inherited
  deriving DecidableEq, Repr

/-- Truthiness of a value read from `userSelections`: an option id is a non-empty
string, an inherited property is a function or an object, `undefined` is falsy. -/
def JSValue.truthy : JSValue → Bool
  | JSValue.undefined => false
  | JSValue.optionId _ => true
  | JSValue.inherited => true

/-- The own property stored under key `k`, if there is one. -/
def ownProperty (m : UserSelections) (k : String) : Option OptionId :=
  m.lookup k

/-- The read `userSelections[k]`: the own property if there is one, otherwise the
property of `Object.prototype` of that name, otherwise `undefined`. -/
def getProperty (m : UserSelections) (k : String) : JSValue :=
  match ownProperty m k with
  | some o => JSValue.optionId o
  | none => if k ∈ objectPrototypeKeys then JSValue.inherited else JSValue.undefined

/-- Overwrite the value of the own property `k` in place, if it exists. -/
def replaceOwn (k : String) (o : OptionId) : UserSelections → UserSelections
  | [] => []
  | (k', o') :: rest => if k' = k then (k, o) :: rest else (k', o') :: replaceOwn k o rest

/-- The write `userSelections[k] = optionId`.  For `k = "__proto__"` the assignment
reaches the accessor inherited from `Object.prototype`, whose setter does nothing
when the value is a string.  Every other inherited property is a writable data
property, so the write creates or updates an own property as for any other key. -/
def setProperty (m : UserSelections) (k : String) (o : OptionId) : UserSelections :=
  if k = "__proto__" then m
  else
    match ownProperty m k with
    | some _ => replaceOwn k o m
    | none => m ++ [(k, o)]

/-- The value of `Object.keys(userSelections)`. -/
def objectKeys (m : UserSelections) : List String :=
  m.map Prod.fst

/-- The variable `appState`. -/
structure AppState where
  currentUsername : String
  optionCounts : OptionCounts
  userSelections : UserSelections
  hasUserSelected : Bool
  deriving DecidableEq, Repr

/-- The initial value of `appState`. -/
def appState : AppState where
  currentUsername := ""
  optionCounts := { optionA := 0, optionB := 0, optionC := 0 }
  userSelections := []
  hasUserSelected := false

/-! ## Strings -/

/-- The code points that `String.prototype.trim` removes: ECMAScript `WhiteSpace`
(tab, vertical tab, form feed, space, no-break space, the byte order mark and the
Unicode space separators) and `LineTerminator`. -/
def isWhiteSpace (c : Char) : Bool :=
  c.val.toNat ∈ [0x0009, 0x000B, 0x000C, 0x0020, 0x00A0, 0xFEFF,
                 0x1680, 0x2000, 0x2001, 0x2002, 0x2003, 0x2004, 0x2005, 0x2006,
                 0x2007, 0x2008, 0x2009, 0x200A, 0x202F, 0x205F, 0x3000,
                 0x000A, 0x000D, 0x2028, 0x2029]

/-- The method `String.prototype.trim`. -/
def trim (s : String) : String :=
  String.mk (((s.toList.dropWhile isWhiteSpace).reverse.dropWhile isWhiteSpace).reverse)

/-- The property `length` of a string: the number of UTF-16 code units. -/
def length (s : String) : Nat :=
  (s.toList.map fun c => if c.val.toNat < 0x10000 then 1 else 2).sum

/-! ## The handlers -/

/-- The three ways `handleEnterPortal` can end. -/
inductive EnterOutcome where
  | emptyName
  | tooShort
  | entered
  deriving DecidableEq, Repr

/-- The text that `handleEnterPortal` writes into `errorMessage.textContent`. -/
def EnterOutcome.errorMessage : EnterOutcome → String
  | EnterOutcome.emptyName => "Please enter your name to continue."
  | EnterOutcome.tooShort => "Name must be at least 2 characters long."
  | EnterOutcome.entered => ""

/-- The function `handleEnterPortal`, with `usernameInput.value` as argument. -/
def handleEnterPortal (value : String) (s : AppState) : EnterOutcome × AppState :=
  let username := trim value
  if username = "" then
    (EnterOutcome.emptyName, s)
  else if length username < 2 then
    (EnterOutcome.tooShort, s)
  else
    let s1 := { s with currentUsername := username }
    let s2 :=
      if (getProperty s1.userSelections username).truthy then
        { s1 with hasUserSelected := true }
      else s1
    (EnterOutcome.entered, s2)

/-- The three ways `handleOptionSelection` can end: the two early returns and the
path that records the selection. -/
inductive SelectOutcome where
  | alreadySelected
  | optionFull
  | accepted
  deriving DecidableEq, Repr

/-- The function `handleOptionSelection`. -/
def handleOptionSelection (optionId : OptionId) (s : AppState) : SelectOutcome × AppState :=
  if s.hasUserSelected then
    (SelectOutcome.alreadySelected, s)
  else if s.optionCounts.get optionId ≥ CONFIG.MAX_SELECTIONS_PER_OPTION then
    (SelectOutcome.optionFull, s)
  else
    (SelectOutcome.accepted,
      { s with
        optionCounts := s.optionCounts.increment optionId
        userSelections := setProperty s.userSelections s.currentUsername optionId
        hasUserSelected := true })

/-! ## Runs -/

/-- A user action: submitting the name field or clicking an option button. -/
inductive Action where
  | beginSession (name : String)
  | selectOption (optionId : OptionId)
  deriving DecidableEq, Repr

/-- The state after one action. -/
def step (s : AppState) : Action → AppState
  | Action.beginSession name => (handleEnterPortal name s).2
  | Action.selectOption optionId => (handleOptionSelection optionId s).2

/-- The state after a sequence of actions. -/
def run (s : AppState) (actions : List Action) : AppState :=
  actions.foldl step s

/-- The states the page can be in: those some sequence of actions leads to from
the initial `appState`. -/
def Reachable (s : AppState) : Prop :=
  ∃ actions : List Action, run appState actions = s

/-! ## What the page shows -/

/-- The three values of the `data-status` attribute and of the `status-` class. -/
inductive Status where
  | full
  | fewSlots
  | available
  deriving DecidableEq, Repr

/-- The status branch of `updateOptionCard` (`count >= MAX_SELECTIONS_PER_OPTION`,
else `count >= THRESHOLD_FEW_SLOTS`, else available).  The configuration is an
argument here so that the part each of its fields plays can be stated. -/
def cardStatus (cfg : Config) (count : Nat) : Status :=
  if count ≥ cfg.MAX_SELECTIONS_PER_OPTION then Status.full
  else if count ≥ cfg.THRESHOLD_FEW_SLOTS then Status.fewSlots
  else Status.available

/-- The status branch of the progress bar in `updateSummary`, written there a
second time. -/
def progressStatus (cfg : Config) (count : Nat) : Status :=
  if count ≥ cfg.MAX_SELECTIONS_PER_OPTION then Status.full
  else if count ≥ cfg.THRESHOLD_FEW_SLOTS then Status.fewSlots
  else Status.available

/-- What `updateOptionCard` writes on one card. -/
structure OptionCard where
  count : Nat
  status : Status
  cardDisabled : Bool
  buttonDisabled : Bool
  deriving DecidableEq, Repr

/-- The function `updateOptionCard`. -/
def updateOptionCard (optionId : OptionId) (s : AppState) : OptionCard :=
  let count := s.optionCounts.get optionId
  let status := cardStatus CONFIG count
  { count := count
    status := status
    cardDisabled := decide (status = Status.full)
    buttonDisabled := decide (status = Status.full) || s.hasUserSelected }

/-- The argument with which `updateUI` calls `highlightSelectedOption`, when it
calls it: the value of `userSelections[currentUsername]` if `hasUserSelected` is
set and that value is truthy. -/
def highlightedOption (s : AppState) : Option JSValue :=
  if s.hasUserSelected then
    let selectedOption := getProperty s.userSelections s.currentUsername
    if selectedOption.truthy then some selectedOption else none
  else none

/-! ## Binary64 arithmetic

A finite non-negative binary64 number is an integer multiple of `2 ^ (-1074)`;
it is represented by that multiple. -/

/-- A finite non-negative binary64 number `x`, stored as `x * 2 ^ 1074`. -/
abbrev Binary64 := Nat

/-- The number of times `q` must be halved to fall below `2 ^ 53`, that is
`max 0 (floor (log2 q) - 52)`; the first argument bounds the number of halvings
and is taken to be `q` itself. -/
def excessBits : Nat → Nat → Nat
  | 0, _ => 0
  | fuel + 1, q => if q < 2 ^ 53 then 0 else excessBits fuel (q / 2) + 1

/-- The binary64 number nearest to the rational `n / d` (for `d > 0`), ties to
even: 53 significant bits, and steps of `2 ^ (-1074)` below `2 ^ (-1021)`.
Overflow to infinity is not represented. -/
def roundNearestEven (n d : Nat) : Binary64 :=
  let scaled := n * 2 ^ 1074
  let shift := excessBits (scaled / d) (scaled / d)
  let unit := d * 2 ^ shift
  let m := scaled / unit
  let r := scaled % unit
  let m1 := if 2 * r > unit ∨ (2 * r = unit ∧ m % 2 = 1) then m + 1 else m
  m1 * 2 ^ shift

/-- An integer below `2 ^ 53` as a binary64 number. -/
def Binary64.ofNat (k : Nat) : Binary64 :=
  k * 2 ^ 1074

/-- The operator `/` on binary64 numbers, for a divisor other than zero. -/
def Binary64.div (x y : Binary64) : Binary64 :=
  roundNearestEven x y

/-- The operator `*` on binary64 numbers. -/
def Binary64.mul (x y : Binary64) : Binary64 :=
  roundNearestEven (x * y) (2 ^ 1074 * 2 ^ 1074)

/-- The function `Math.round` on a non-negative number: `floor (x + 1/2)`,
computed exactly. -/
def mathRound (x : Binary64) : Nat :=
  (2 * x + 2 ^ 1074) / 2 ^ 1075

/-! ## The summary -/

/-- One row of the breakdown that `updateSummary` writes. -/
structure Breakdown where
  count : Nat
  percentage : Nat
  status : Status
  deriving DecidableEq, Repr

/-- The numbers `updateSummary` computes. -/
structure Summary where
  totalSelections : Nat
  availableSlots : Int
  distinctUsers : Nat
  breakdown : List Breakdown
  deriving DecidableEq, Repr

/-- The expression `Math.round((count / CONFIG.MAX_SELECTIONS_PER_OPTION) * 100)`. -/
def percentage (count : Nat) : Nat :=
  mathRound
    (Binary64.mul
      (Binary64.div (Binary64.ofNat count) (Binary64.ofNat CONFIG.MAX_SELECTIONS_PER_OPTION))
      (Binary64.ofNat 100))

/-- The function `updateSummary`. -/
def updateSummary (s : AppState) : Summary :=
  let totalSelections :=
    CONFIG.OPTIONS.foldl (fun sum optionId => sum + s.optionCounts.get optionId) 0
  let availableSlots : Int := 60 - (totalSelections : Int)
  let distinctUsers := (objectKeys s.userSelections).length
  { totalSelections := totalSelections
    availableSlots := availableSlots
    distinctUsers := distinctUsers
    breakdown := CONFIG.OPTIONS.map fun optionId =>
      let count := s.optionCounts.get optionId
      { count := count
        percentage := percentage count
        status := progressStatus CONFIG count } }

/-- The function `checkIfAllFull`: the value of `allFull`, on which the
all-full message is shown and the options grid hidden. -/
def checkIfAllFull (s : AppState) : Bool :=
  CONFIG.OPTIONS.all fun optionId =>
    decide (s.optionCounts.get optionId ≥ CONFIG.MAX_SELECTIONS_PER_OPTION)

/-! ## Scenario A -/

/-- Scenario A of the specification as a run of the two handlers: each name in
turn is submitted to `handleEnterPortal` and then option A is clicked; the
outcomes of the clicks are collected in order. -/
def scenarioA : List String → AppState → List SelectOutcome × AppState
  | [], s => ([], s)
  | name :: rest, s =>
    let entered := (handleEnterPortal name s).2
    let clicked := handleOptionSelection OptionId.optionA entered
    (clicked.1 :: (scenarioA rest clicked.2).1, (scenarioA rest clicked.2).2)

/-- Twenty-one distinct valid names. -/
def twentyOneNames : List String :=
  ["p01", "p02", "p03", "p04", "p05", "p06", "p07", "p08", "p09", "p10", "p11",
   "p12", "p13", "p14", "p15", "p16", "p17", "p18", "p19", "p20", "p21"]

/-- The specification's `percentage = round(100 × count / capacity)`, in exact
rational arithmetic with halves rounded up. -/
def specPercentage (count capacity : Nat) : Int :=
  ⌊(100 * (count : ℚ)) / (capacity : ℚ) + 1 / 2⌋

/-! ## Invariants -/

/-- Every count is at most the capacity. -/
def WithinCapacity (s : AppState) : Prop :=
  ∀ o, s.optionCounts.get o ≤ CONFIG.MAX_SELECTIONS_PER_OPTION

/-- The facts that tie the flag to the registry in every state the page can be
in: while `hasUserSelected` is unset nothing has been recorded and the current
name is not the name of an inherited property; the counts add up to the number
of recorded entries; and there is at most one entry. -/
structure Consistent (s : AppState) : Prop where
  fresh : s.hasUserSelected = false →
    s.userSelections = [] ∧ s.optionCounts = { optionA := 0, optionB := 0, optionC := 0 } ∧
      s.currentUsername ∉ objectPrototypeKeys
  conserved : s.optionCounts.optionA + s.optionCounts.optionB + s.optionCounts.optionC =
    s.userSelections.length
  single : s.userSelections.length ≤ 1

/-! ## Lemmas on the two handlers -/

theorem get_increment (c : OptionCounts) (o o' : OptionId) :
    (c.increment o).get o' = if o' = o then c.get o + 1 else c.get o' := by
  cases o <;> cases o' <;> simp [OptionCounts.increment, OptionCounts.get]

theorem enter_optionCounts (value : String) (s : AppState) :
    (handleEnterPortal value s).2.optionCounts = s.optionCounts := by
  simp only [handleEnterPortal]
  split_ifs <;> rfl

theorem enter_userSelections (value : String) (s : AppState) :
    (handleEnterPortal value s).2.userSelections = s.userSelections := by
  simp only [handleEnterPortal]
  split_ifs <;> rfl

theorem enter_flag_of_flag (value : String) (s : AppState) (h : s.hasUserSelected = true) :
    (handleEnterPortal value s).2.hasUserSelected = true := by
  simp only [handleEnterPortal]
  split_ifs <;> simp [h]

theorem select_of_flag (o : OptionId) (s : AppState) (h : s.hasUserSelected = true) :
    handleOptionSelection o s = (SelectOutcome.alreadySelected, s) := by
  simp [handleOptionSelection, h]

theorem select_of_full (o : OptionId) (s : AppState) (h : s.hasUserSelected = false)
    (hfull : CONFIG.MAX_SELECTIONS_PER_OPTION ≤ s.optionCounts.get o) :
    handleOptionSelection o s = (SelectOutcome.optionFull, s) := by
  simp [handleOptionSelection, h, hfull]

theorem select_of_free (o : OptionId) (s : AppState) (h : s.hasUserSelected = false)
    (hfree : s.optionCounts.get o < CONFIG.MAX_SELECTIONS_PER_OPTION) :
    handleOptionSelection o s =
      (SelectOutcome.accepted,
        { s with
          optionCounts := s.optionCounts.increment o
          userSelections := setProperty s.userSelections s.currentUsername o
          hasUserSelected := true }) := by
  simp [handleOptionSelection, h, Nat.not_le.mpr hfree]

/-- A property that holds initially and that every action preserves holds after
every run. -/
theorem run_induction (P : AppState → Prop) (hstep : ∀ s a, P s → P (step s a))
    (actions : List Action) : ∀ s, P s → P (run s actions) := by
  induction actions with
  | nil => intro s hs; exact hs
  | cons a rest ih => intro s hs; exact ih (step s a) (hstep s a hs)

theorem withinCapacity_step (s : AppState) (a : Action) (h : WithinCapacity s) :
    WithinCapacity (step s a) := by
  cases a with
  | beginSession name =>
    intro o
    simp only [step, enter_optionCounts]
    exact h o
  | selectOption optionId =>
    intro o
    simp only [step]
    cases hflag : s.hasUserSelected with
    | true => rw [select_of_flag _ _ hflag]; exact h o
    | false =>
      rcases Nat.lt_or_ge (s.optionCounts.get optionId) CONFIG.MAX_SELECTIONS_PER_OPTION
        with hfree | hfull
      · rw [select_of_free _ _ hflag hfree]
        simp only [get_increment]
        split_ifs with ho
        · exact hfree
        · exact h o
      · rw [select_of_full _ _ hflag hfull]; exact h o

theorem consistent_appState : Consistent appState := by
  refine ⟨fun _ => ⟨rfl, rfl, ?_⟩, rfl, by simp [appState]⟩
  decide

theorem setProperty_nil (k : String) (o : OptionId) (hk : k ∉ objectPrototypeKeys) :
    setProperty [] k o = [(k, o)] := by
  have hne : k ≠ "__proto__" := by
    intro h
    apply hk
    rw [h]
    decide
  simp [setProperty, hne, ownProperty]

theorem consistent_step (s : AppState) (a : Action) (h : Consistent s) :
    Consistent (step s a) := by
  cases a with
  | beginSession name =>
    simp only [step]
    refine ⟨?_, ?_, ?_⟩
    · intro hflag
      have hpre : s.hasUserSelected = false := by
        cases hs : s.hasUserSelected with
        | false => rfl
        | true => rw [enter_flag_of_flag _ _ hs] at hflag; exact absurd hflag (by decide)
      obtain ⟨hmap, hcounts, hname⟩ := h.fresh hpre
      refine ⟨by rw [enter_userSelections]; exact hmap,
        by rw [enter_optionCounts]; exact hcounts, ?_⟩
      revert hflag
      simp only [handleEnterPortal, hmap, getProperty, ownProperty, List.lookup]
      split_ifs with h1 h2 h3 <;> simp_all [JSValue.truthy]
    · rw [enter_optionCounts, enter_userSelections]; exact h.conserved
    · rw [enter_userSelections]; exact h.single
  | selectOption optionId =>
    simp only [step]
    cases hflag : s.hasUserSelected with
    | true => rw [select_of_flag _ _ hflag]; exact h
    | false =>
      rcases Nat.lt_or_ge (s.optionCounts.get optionId) CONFIG.MAX_SELECTIONS_PER_OPTION
        with hfree | hfull
      · rw [select_of_free _ _ hflag hfree]
        obtain ⟨hmap, hcounts, hname⟩ := h.fresh hflag
        refine ⟨?_, ?_, ?_⟩
        · intro hcontra; exact absurd hcontra (by simp)
        · simp only [hmap, hcounts, setProperty_nil _ _ hname]
          cases optionId <;> simp [OptionCounts.increment]
        · simp only [hmap, setProperty_nil _ _ hname]
          simp
      · rw [select_of_full _ _ hflag hfull]; exact h

theorem consistent_run (actions : List Action) : Consistent (run appState actions) :=
  run_induction Consistent consistent_step actions appState consistent_appState

/-- Once the flag is set, no action changes the registry or unsets the flag. -/
theorem step_of_flag (s : AppState) (a : Action) (h : s.hasUserSelected = true) :
    (step s a).hasUserSelected = true ∧ (step s a).userSelections = s.userSelections ∧
      (step s a).optionCounts = s.optionCounts := by
  cases a with
  | beginSession name =>
    exact ⟨enter_flag_of_flag _ _ h, enter_userSelections _ _, enter_optionCounts _ _⟩
  | selectOption optionId =>
    simp only [step]
    rw [select_of_flag _ _ h]
    exact ⟨h, rfl, rfl⟩

theorem run_of_flag (actions : List Action) :
    ∀ s : AppState, s.hasUserSelected = true →
      (run s actions).hasUserSelected = true ∧ (run s actions).userSelections = s.userSelections ∧
        (run s actions).optionCounts = s.optionCounts := by
  induction actions with
  | nil => intro s h; exact ⟨h, rfl, rfl⟩
  | cons a rest ih =>
    intro s h
    obtain ⟨h1, h2, h3⟩ := step_of_flag s a h
    obtain ⟨k1, k2, k3⟩ := ih (step s a) h1
    exact ⟨k1, k2.trans h2, k3.trans h3⟩

theorem updateSummary_totalSelections (s : AppState) :
    (updateSummary s).totalSelections =
      s.optionCounts.optionA + s.optionCounts.optionB + s.optionCounts.optionC := by
  simp [updateSummary, CONFIG, OptionCounts.get]

theorem updateSummary_distinctUsers (s : AppState) :
    (updateSummary s).distinctUsers = s.userSelections.length := by
  simp [updateSummary, objectKeys]

theorem flag_of_entry (s : AppState) (h : Consistent s) (p : String) (o : OptionId)
    (hp : ownProperty s.userSelections p = some o) : s.hasUserSelected = true := by
  cases hflag : s.hasUserSelected with
  | true => rfl
  | false =>
    obtain ⟨hmap, _, _⟩ := h.fresh hflag
    rw [hmap] at hp
    simp [ownProperty] at hp

/-! ## The claims -/

/-- C1 (capacity, I1/P1): after any finite sequence of name submissions and option
clicks from the initial `appState`, the count of every option is at least 0 and
at most 20, the value of `CONFIG.MAX_SELECTIONS_PER_OPTION`. -/
theorem capacity_invariant (actions : List Action) (o : OptionId) :
    0 ≤ (run appState actions).optionCounts.get o ∧
      (run appState actions).optionCounts.get o ≤ 20 ∧
      CONFIG.MAX_SELECTIONS_PER_OPTION = 20 := by
  refine ⟨Nat.zero_le _, ?_, rfl⟩
  have hinit : WithinCapacity appState := by
    intro o'
    cases o' <;> decide
  exact run_induction WithinCapacity withinCapacity_step actions appState hinit o

/-- C2 (rejection without state change, P2 and OptionFull): when the current
participant of a reachable state already has an entry in `userSelections`, or
when the count of the option is 20 or more (in any state), `handleOptionSelection`
takes one of its two early returns and the state after the call is the state
before it, in all of its fields; in the first case the return taken is the
already-selected one. -/
theorem rejection_leaves_state (s : AppState) (o : OptionId)
    (h : (Reachable s ∧ (ownProperty s.userSelections s.currentUsername).isSome = true) ∨
      20 ≤ s.optionCounts.get o) :
    handleOptionSelection o s =
        (if s.hasUserSelected = true then SelectOutcome.alreadySelected
          else SelectOutcome.optionFull, s) ∧
      ((Reachable s ∧ (ownProperty s.userSelections s.currentUsername).isSome = true) →
        s.hasUserSelected = true) := by
  have hentry : (Reachable s ∧ (ownProperty s.userSelections s.currentUsername).isSome = true) →
      s.hasUserSelected = true := by
    rintro ⟨⟨actions, rfl⟩, hsome⟩
    obtain ⟨o', ho'⟩ := Option.isSome_iff_exists.mp hsome
    exact flag_of_entry _ (consistent_run actions) _ o' ho'
  refine ⟨?_, hentry⟩
  cases hflag : s.hasUserSelected with
  | true => simp [select_of_flag _ _ hflag]
  | false =>
    rcases h with h | h
    · rw [hentry h] at hflag; exact absurd hflag (by decide)
    · simp [select_of_full _ _ hflag h]

/-- C2 at two inputs: Zoe has selected option B and clicks option A; and a state
in which option A holds 20 selections. -/
theorem rejection_leaves_state_witness :
    (handleOptionSelection OptionId.optionA
        (run appState [Action.beginSession "Zoe", Action.selectOption OptionId.optionB]) =
      (SelectOutcome.alreadySelected,
        run appState [Action.beginSession "Zoe", Action.selectOption OptionId.optionB])) ∧
    (handleOptionSelection OptionId.optionA
        { currentUsername := "Zoe", optionCounts := { optionA := 20, optionB := 3, optionC := 0 },
          userSelections := [], hasUserSelected := false } =
      (SelectOutcome.optionFull,
        { currentUsername := "Zoe", optionCounts := { optionA := 20, optionB := 3, optionC := 0 },
          userSelections := [], hasUserSelected := false })) :=
  ⟨(rejection_leaves_state
      (run appState [Action.beginSession "Zoe", Action.selectOption OptionId.optionB])
      OptionId.optionA (Or.inl ⟨⟨_, rfl⟩, by decide⟩)).1,
   (rejection_leaves_state
      { currentUsername := "Zoe", optionCounts := { optionA := 20, optionB := 3, optionC := 0 },
        userSelections := [], hasUserSelected := false }
      OptionId.optionA (Or.inr (by decide))).1⟩

/-- C3 (immutability of a recorded choice, I3): if a name is a key of
`userSelections` in a reachable state, then after any further sequence of name
submissions and option clicks it is still a key and maps to the same option. -/
theorem recorded_choice_immutable (before later : List Action) (p : String) (o : OptionId)
    (h : ownProperty (run appState before).userSelections p = some o) :
    ownProperty (run (run appState before) later).userSelections p = some o := by
  have hflag := flag_of_entry _ (consistent_run before) p o h
  rw [(run_of_flag later _ hflag).2.1]
  exact h

/-- C3 at an input: the entry of Zoe survives five further actions. -/
theorem recorded_choice_immutable_witness :
    ownProperty (run appState [Action.beginSession "Zoe",
        Action.selectOption OptionId.optionB]).userSelections "Zoe" = some OptionId.optionB ∧
      ownProperty (run (run appState [Action.beginSession "Zoe",
          Action.selectOption OptionId.optionB])
        [Action.selectOption OptionId.optionA, Action.beginSession "Bob",
          Action.selectOption OptionId.optionC, Action.beginSession "Zoe",
          Action.selectOption OptionId.optionA]).userSelections "Zoe" = some OptionId.optionB :=
  ⟨by decide, recorded_choice_immutable _ _ "Zoe" OptionId.optionB (by decide)⟩

/-- C4 (conservation, I2/P3): in every reachable state the `totalSelections` that
`updateSummary` computes, which is the sum of the three option counts, equals
the `distinctUsers` it computes, which is the number of keys of `userSelections`. -/
theorem conservation (actions : List Action) :
    (updateSummary (run appState actions)).totalSelections =
        (run appState actions).optionCounts.optionA +
          (run appState actions).optionCounts.optionB +
          (run appState actions).optionCounts.optionC ∧
      (updateSummary (run appState actions)).distinctUsers =
        (objectKeys (run appState actions).userSelections).length ∧
      (updateSummary (run appState actions)).totalSelections =
        (updateSummary (run appState actions)).distinctUsers := by
  refine ⟨updateSummary_totalSelections _, rfl, ?_⟩
  rw [updateSummary_totalSelections, updateSummary_distinctUsers]
  exact (consistent_run actions).conserved

theorem length_empty : length "" = 0 := by decide

theorem trim_ne_empty_of_length (value : String) (h : 2 ≤ length (trim value)) :
    trim value ≠ "" := by
  intro hempty
  rw [hempty, length_empty] at h
  exact absurd h (by decide)

/-- What a successful `handleEnterPortal` does, in one equation. -/
theorem enter_of_valid (value : String) (s : AppState) (h : 2 ≤ length (trim value)) :
    handleEnterPortal value s =
      (EnterOutcome.entered,
        { s with
          currentUsername := trim value
          hasUserSelected :=
            s.hasUserSelected || (getProperty s.userSelections (trim value)).truthy }) := by
  have hne := trim_ne_empty_of_length value h
  have hlen : ¬ length (trim value) < 2 := Nat.not_lt.mpr h
  simp only [handleEnterPortal, hne, hlen, if_false]
  cases htruthy : (getProperty s.userSelections (trim value)).truthy <;> simp

set_option maxRecDepth 20000 in
/-- C5 (Scenario A) on the code, at the failing run: on a fresh page the two
distinct valid names Al and Bo are submitted in turn and each clicks option A.
The click of Al is accepted; the click of Bo returns at the guard
`if (appState.hasUserSelected)`, because `handleEnterPortal` changed
`currentUsername` to Bo without clearing the flag that Al's click set, although
Bo has no entry in `userSelections`; the count of option A is 1, not 2.  With
twenty-one distinct valid names the last click is rejected at that same guard
with the count at 1, not as option-full with the count at 20. -/
theorem scenarioA_failing_run :
    ["Al", "Bo"].Nodup ∧ (∀ n ∈ ["Al", "Bo"], 2 ≤ length (trim n)) ∧
      (scenarioA ["Al", "Bo"] appState).1 =
        [SelectOutcome.accepted, SelectOutcome.alreadySelected] ∧
      ownProperty (scenarioA ["Al", "Bo"] appState).2.userSelections "Bo" = none ∧
      (scenarioA ["Al", "Bo"] appState).2.optionCounts.get OptionId.optionA = 1 ∧
      (scenarioA ["Al", "Bo"] appState).2.optionCounts.get OptionId.optionA ≠
        ["Al", "Bo"].length ∧
      twentyOneNames.Nodup ∧ twentyOneNames.length = 21 ∧
      (∀ n ∈ twentyOneNames, 2 ≤ length (trim n)) ∧
      (scenarioA twentyOneNames appState).1.getLast? = some SelectOutcome.alreadySelected ∧
      (scenarioA twentyOneNames appState).2.optionCounts.get OptionId.optionA = 1 := by
  decide

theorem ownProperty_cons (k' : String) (o' : OptionId) (rest : UserSelections) (k : String) :
    ownProperty ((k', o') :: rest) k = if k = k' then some o' else ownProperty rest k := by
  simp only [ownProperty, List.lookup]
  by_cases h : k = k'
  · simp [h]
  · have hbeq : (k == k') = false := by simpa using h
    simp [h, hbeq]

theorem ownProperty_replaceOwn (k : String) (o : OptionId) (m : UserSelections) (k' : String) :
    ownProperty (replaceOwn k o m) k' =
      if k' = k then (ownProperty m k).map (fun _ => o) else ownProperty m k' := by
  induction m with
  | nil => simp [replaceOwn, ownProperty]
  | cons entry rest ih =>
    obtain ⟨k1, o1⟩ := entry
    simp only [replaceOwn]
    by_cases h1 : k1 = k
    · subst h1
      simp only [if_true, ownProperty_cons]
      by_cases h2 : k' = k1
      · simp [h2]
      · simp [h2]
    · simp only [h1, if_false, ownProperty_cons, ih]
      by_cases h2 : k' = k
      · subst h2
        have h3 : ¬ k' = k1 := fun h => h1 h.symm
        simp [h3]
      · simp [h2]

theorem ownProperty_append (m : UserSelections) (k : String) (o : OptionId) (k' : String) :
    ownProperty (m ++ [(k, o)]) k' =
      match ownProperty m k' with
      | some v => some v
      | none => if k' = k then some o else none := by
  induction m with
  | nil =>
    show ownProperty [(k, o)] k' = _
    rw [ownProperty_cons]
    simp [ownProperty]
  | cons entry rest ih =>
    obtain ⟨k1, o1⟩ := entry
    simp only [List.cons_append, ownProperty_cons, ih]
    by_cases h : k' = k1
    · simp [h]
    · simp [h]

/-- A write to a key other than `__proto__` is read back, and no other key is
affected. -/
theorem ownProperty_setProperty (m : UserSelections) (k : String) (o : OptionId) (k' : String)
    (hk : k ≠ "__proto__") :
    ownProperty (setProperty m k o) k' = if k' = k then some o else ownProperty m k' := by
  simp only [setProperty, hk, if_false]
  cases hown : ownProperty m k with
  | some v =>
    simp only [ownProperty_replaceOwn, hown]
    rfl
  | none =>
    simp only [ownProperty_append]
    by_cases h : k' = k
    · subst h
      simp [hown]
    · simp only [h, if_false]
      cases ownProperty m k' <;> rfl

/-- A write to the key `__proto__` leaves the object as it was. -/
theorem setProperty_proto (m : UserSelections) (o : OptionId) :
    setProperty m "__proto__" o = m := by
  simp [setProperty]

/-- C6 on the code, at two failing runs on a fresh page.  First: Zoe enters and
selects option B, then the valid name Bob is submitted; `handleEnterPortal` sets
`currentUsername` to Bob and leaves `hasUserSelected` true, although Bob has no
entry in `userSelections`, and `updateUI` highlights no card.  Second: the valid
name `constructor` is submitted first; the read `userSelections[username]`
finds the property inherited from `Object.prototype`, so the flag becomes true
although nothing has been recorded, the value handed to
`highlightSelectedOption` is that inherited property and not an option, and the
click that follows is rejected as already selected. -/
theorem beginSession_flag_failing_runs :
    2 ≤ length (trim "Bob") ∧
      (handleEnterPortal "Bob"
        (run appState [Action.beginSession "Zoe",
          Action.selectOption OptionId.optionB])).1 = EnterOutcome.entered ∧
      (handleEnterPortal "Bob"
        (run appState [Action.beginSession "Zoe",
          Action.selectOption OptionId.optionB])).2.currentUsername = "Bob" ∧
      (handleEnterPortal "Bob"
        (run appState [Action.beginSession "Zoe",
          Action.selectOption OptionId.optionB])).2.hasUserSelected = true ∧
      ownProperty (run appState [Action.beginSession "Zoe",
          Action.selectOption OptionId.optionB]).userSelections (trim "Bob") = none ∧
      highlightedOption (handleEnterPortal "Bob"
        (run appState [Action.beginSession "Zoe",
          Action.selectOption OptionId.optionB])).2 = none ∧
      2 ≤ length (trim "constructor") ∧
      (handleEnterPortal "constructor" appState).1 = EnterOutcome.entered ∧
      (handleEnterPortal "constructor" appState).2.hasUserSelected = true ∧
      ownProperty appState.userSelections (trim "constructor") = none ∧
      objectKeys (handleEnterPortal "constructor" appState).2.userSelections = [] ∧
      highlightedOption (handleEnterPortal "constructor" appState).2 =
        some JSValue.inherited ∧
      handleOptionSelection OptionId.optionA (handleEnterPortal "constructor" appState).2 =
        (SelectOutcome.alreadySelected, (handleEnterPortal "constructor" appState).2) := by
  decide

/-- In a reachable state whose flag is unset the current name is not `__proto__`:
`handleEnterPortal` sets the flag when it is given that name. -/
theorem currentUsername_ne_proto (s : AppState) (hreach : Reachable s)
    (hflag : s.hasUserSelected = false) : s.currentUsername ≠ "__proto__" := by
  obtain ⟨actions, rfl⟩ := hreach
  obtain ⟨_, _, hname⟩ := (consistent_run actions).fresh hflag
  intro h
  apply hname
  rw [h]
  decide

/-- C7 (success postcondition of `handleOptionSelection`): in every state in
which the selection is accepted (`hasUserSelected` is false and the count of the
option is below 20), the call takes the accepting path, increases the count of
that option by exactly 1, leaves the counts of the other two options unchanged,
leaves `currentUsername` unchanged, sets `hasUserSelected`, leaves the entry of
every name other than `currentUsername` unchanged, and sets
`userSelections[currentUsername]` to the option.  The last part holds in every
state the page can reach, and in every other state whose `currentUsername` is
not `__proto__`. -/
theorem select_success (s : AppState) (o : OptionId)
    (hflag : s.hasUserSelected = false) (hfree : s.optionCounts.get o < 20) :
    (handleOptionSelection o s).1 = SelectOutcome.accepted ∧
      (handleOptionSelection o s).2.optionCounts.get o = s.optionCounts.get o + 1 ∧
      (∀ o', o' ≠ o →
        (handleOptionSelection o s).2.optionCounts.get o' = s.optionCounts.get o') ∧
      (handleOptionSelection o s).2.currentUsername = s.currentUsername ∧
      (handleOptionSelection o s).2.hasUserSelected = true ∧
      (∀ k, k ≠ s.currentUsername →
        ownProperty (handleOptionSelection o s).2.userSelections k =
          ownProperty s.userSelections k) ∧
      (Reachable s ∨ s.currentUsername ≠ "__proto__" →
        ownProperty (handleOptionSelection o s).2.userSelections s.currentUsername = some o ∧
          getProperty (handleOptionSelection o s).2.userSelections s.currentUsername =
            JSValue.optionId o) := by
  have hname : Reachable s ∨ s.currentUsername ≠ "__proto__" →
      s.currentUsername ≠ "__proto__" := by
    rintro (hreach | hne)
    · exact currentUsername_ne_proto s hreach hflag
    · exact hne
  rw [select_of_free o s hflag hfree]
  refine ⟨rfl, ?_, ?_, rfl, rfl, ?_, ?_⟩
  · simp [get_increment]
  · intro o' ho'
    simp [get_increment, ho']
  · intro k hk
    by_cases hproto : s.currentUsername = "__proto__"
    · simp only [hproto, setProperty_proto]
    · simp only [ownProperty_setProperty _ _ _ _ hproto, hk, if_false]
  · intro hstate
    have hproto := hname hstate
    have hown : ownProperty (setProperty s.userSelections s.currentUsername o)
        s.currentUsername = some o := by
      rw [ownProperty_setProperty _ _ _ _ hproto]
      simp
    exact ⟨hown, by simp only [getProperty, hown]⟩

/-- C7 at two inputs: on a fresh page Zoe enters and selects option C; and, in
a state with other entries and counts, Zoe takes the last free place of
option C. -/
theorem select_success_witness :
    ((run appState [Action.beginSession "Zoe"]).hasUserSelected = false ∧
      (handleOptionSelection OptionId.optionC
        (run appState [Action.beginSession "Zoe"])).1 = SelectOutcome.accepted ∧
      ownProperty (handleOptionSelection OptionId.optionC
        (run appState [Action.beginSession "Zoe"])).2.userSelections
          (run appState [Action.beginSession "Zoe"]).currentUsername =
        some OptionId.optionC) ∧
    ((handleOptionSelection OptionId.optionC
        { currentUsername := "Zoe",
          optionCounts := { optionA := 3, optionB := 20, optionC := 19 },
          userSelections := [("Al", OptionId.optionA)], hasUserSelected := false }).1 =
        SelectOutcome.accepted ∧
      (handleOptionSelection OptionId.optionC
        { currentUsername := "Zoe",
          optionCounts := { optionA := 3, optionB := 20, optionC := 19 },
          userSelections := [("Al", OptionId.optionA)],
          hasUserSelected := false }).2.optionCounts.get OptionId.optionC = 19 + 1) :=
  ⟨⟨by decide,
    (select_success (run appState [Action.beginSession "Zoe"]) OptionId.optionC
      (by decide) (by decide)).1,
    ((select_success (run appState [Action.beginSession "Zoe"]) OptionId.optionC
      (by decide) (by decide)).2.2.2.2.2.2 (Or.inl ⟨_, rfl⟩)).1⟩,
   ⟨(select_success
      { currentUsername := "Zoe",
        optionCounts := { optionA := 3, optionB := 20, optionC := 19 },
        userSelections := [("Al", OptionId.optionA)], hasUserSelected := false }
      OptionId.optionC rfl (by decide)).1,
    (select_success
      { currentUsername := "Zoe",
        optionCounts := { optionA := 3, optionB := 20, optionC := 19 },
        userSelections := [("Al", OptionId.optionA)], hasUserSelected := false }
      OptionId.optionC rfl (by decide)).2.1⟩⟩

theorem length_eq_zero_iff (t : String) : length t = 0 ↔ t = "" := by
  constructor
  · intro h
    obtain ⟨chars⟩ := t
    cases chars with
    | nil => rfl
    | cons c rest =>
      simp only [length, String.toList, List.map_cons, List.sum_cons] at h
      split_ifs at h <;> omega
  · intro h
    rw [h]
    decide

/-- The model of `trim` removes a run of white space at each end and nothing
else: the input is white space, then the result, then white space, and the
result neither starts nor ends with white space. -/
theorem trim_decompose (value : String) :
    ∃ leading trailing : List Char,
      value.toList = leading ++ (trim value).toList ++ trailing ∧
        (∀ c ∈ leading, isWhiteSpace c = true) ∧ (∀ c ∈ trailing, isWhiteSpace c = true) ∧
        (∀ c, (trim value).toList.head? = some c → isWhiteSpace c = false) ∧
        (∀ c, (trim value).toList.getLast? = some c → isWhiteSpace c = false) := by
  have hsplit : (value.toList.dropWhile isWhiteSpace) =
      (trim value).toList ++
        ((value.toList.dropWhile isWhiteSpace).reverse.takeWhile isWhiteSpace).reverse := by
    have h := List.takeWhile_append_dropWhile isWhiteSpace
      (value.toList.dropWhile isWhiteSpace).reverse
    have h2 := congrArg List.reverse h
    rw [List.reverse_append, List.reverse_reverse] at h2
    exact h2.symm
  refine ⟨value.toList.takeWhile isWhiteSpace,
    ((value.toList.dropWhile isWhiteSpace).reverse.takeWhile isWhiteSpace).reverse, ?_, ?_, ?_, ?_, ?_⟩
  · rw [List.append_assoc, ← hsplit, List.takeWhile_append_dropWhile]
  · intro c hc
    exact List.mem_takeWhile_imp hc
  · intro c hc
    exact List.mem_takeWhile_imp (List.mem_reverse.mp hc)
  · intro c hc
    have hhead := List.head?_dropWhile_not isWhiteSpace value.toList
    rw [hsplit] at hhead
    cases ht : (trim value).toList with
    | nil => rw [ht] at hc; simp at hc
    | cons a rest =>
      rw [ht] at hc hhead
      simp only [List.head?_cons, Option.some.injEq] at hc
      simp only [List.cons_append, List.head?_cons] at hhead
      rw [← hc]
      exact hhead
  · intro c hc
    have hhead := List.head?_dropWhile_not isWhiteSpace
      (value.toList.dropWhile isWhiteSpace).reverse
    have hlast : (trim value).toList.getLast? =
        ((value.toList.dropWhile isWhiteSpace).reverse.dropWhile isWhiteSpace).head? := by
      show (((value.toList.dropWhile isWhiteSpace).reverse.dropWhile isWhiteSpace).reverse).getLast? = _
      rw [List.getLast?_reverse]
    rw [hlast] at hc
    rw [hc] at hhead
    exact hhead
/-- C8 (validation and frame of `handleEnterPortal`, P5): for every state and
every raw input, the call fails if and only if the trimmed input has length
below 2, with the empty-name error exactly when the trimmed input is empty
and the too-short error exactly when its length is 1; a failing call leaves the
state unchanged; a succeeding call sets `currentUsername` to the trimmed input;
in both cases `optionCounts` and `userSelections` are unchanged.  The inputs
`""`, `"   "` and `"A"` fail and `" Bo "` succeeds and records `"Bo"`. -/
theorem enter_validation (s : AppState) (value : String) :
    ((handleEnterPortal value s).1 ≠ EnterOutcome.entered ↔ length (trim value) < 2) ∧
      ((handleEnterPortal value s).1 = EnterOutcome.emptyName ↔ trim value = "") ∧
      ((handleEnterPortal value s).1 = EnterOutcome.emptyName ↔ length (trim value) = 0) ∧
      ((handleEnterPortal value s).1 = EnterOutcome.tooShort ↔ length (trim value) = 1) ∧
      ((handleEnterPortal value s).1 ≠ EnterOutcome.entered → (handleEnterPortal value s).2 = s) ∧
      ((handleEnterPortal value s).1 = EnterOutcome.entered →
        (handleEnterPortal value s).2.currentUsername = trim value) ∧
      (handleEnterPortal value s).2.optionCounts = s.optionCounts ∧
      (handleEnterPortal value s).2.userSelections = s.userSelections ∧
      handleEnterPortal "" s = (EnterOutcome.emptyName, s) ∧
      handleEnterPortal "   " s = (EnterOutcome.emptyName, s) ∧
      handleEnterPortal "A" s = (EnterOutcome.tooShort, s) ∧
      (handleEnterPortal " Bo " s).1 = EnterOutcome.entered ∧
      (handleEnterPortal " Bo " s).2.currentUsername = "Bo" ∧
      EnterOutcome.emptyName.errorMessage = "Please enter your name to continue." ∧
      EnterOutcome.tooShort.errorMessage = "Name must be at least 2 characters long." := by
  have hcases : (trim value = "" ∧ handleEnterPortal value s = (EnterOutcome.emptyName, s)) ∨
      (trim value ≠ "" ∧ length (trim value) < 2 ∧
        handleEnterPortal value s = (EnterOutcome.tooShort, s)) ∨
      (2 ≤ length (trim value) ∧ (handleEnterPortal value s).1 = EnterOutcome.entered ∧
        (handleEnterPortal value s).2.currentUsername = trim value) := by
    by_cases hempty : trim value = ""
    · left
      exact ⟨hempty, by simp [handleEnterPortal, hempty]⟩
    · right
      by_cases hshort : length (trim value) < 2
      · left
        exact ⟨hempty, hshort, by simp [handleEnterPortal, hempty, hshort]⟩
      · right
        have hvalid := Nat.not_lt.mp hshort
        rw [enter_of_valid value s hvalid]
        exact ⟨hvalid, rfl, rfl⟩
  have hzero := length_eq_zero_iff (trim value)
  have hBo : trim " Bo " = "Bo" := by decide
  have hBolen : 2 ≤ length (trim " Bo ") := by decide
  refine ⟨?_, ?_, ?_, ?_, ?_, ?_, enter_optionCounts _ _, enter_userSelections _ _,
    ?_, ?_, ?_, ?_, ?_, rfl, rfl⟩
  · rcases hcases with ⟨h1, h2⟩ | ⟨h1, h2, h3⟩ | ⟨h1, h2, h3⟩
    · rw [h2]
      have := hzero.mpr h1
      simp
      omega
    · rw [h3]
      simp [h2]
    · rw [h2]
      simp
      omega
  · rcases hcases with ⟨h1, h2⟩ | ⟨h1, h2, h3⟩ | ⟨h1, h2, h3⟩
    · rw [h2]; simp [h1]
    · rw [h3]; simp [h1]
    · rw [h2]
      have : trim value ≠ "" := trim_ne_empty_of_length value h1
      simp [this]
  · rcases hcases with ⟨h1, h2⟩ | ⟨h1, h2, h3⟩ | ⟨h1, h2, h3⟩
    · rw [h2]; simp [hzero.mpr h1]
    · rw [h3]
      have : length (trim value) ≠ 0 := fun h => h1 (hzero.mp h)
      simp [this]
    · rw [h2]
      have : length (trim value) ≠ 0 := by omega
      simp [this]
  · rcases hcases with ⟨h1, h2⟩ | ⟨h1, h2, h3⟩ | ⟨h1, h2, h3⟩
    · rw [h2]
      have : length (trim value) ≠ 1 := by rw [hzero.mpr h1]; decide
      simp [this]
    · rw [h3]
      have : length (trim value) ≠ 0 := fun h => h1 (hzero.mp h)
      simp
      omega
    · rw [h2]
      have : length (trim value) ≠ 1 := by omega
      simp [this]
  · rcases hcases with ⟨h1, h2⟩ | ⟨h1, h2, h3⟩ | ⟨h1, h2, h3⟩
    · rw [h2]; simp
    · rw [h3]; simp
    · intro hne; exact absurd h2 hne
  · rcases hcases with ⟨h1, h2⟩ | ⟨h1, h2, h3⟩ | ⟨h1, h2, h3⟩
    · rw [h2]; simp
    · rw [h3]; simp
    · intro _; exact h3
  · have h : trim "" = "" := by decide
    simp [handleEnterPortal, h]
  · have h : trim "   " = "" := by decide
    simp [handleEnterPortal, h]
  · have h : trim "A" = "A" := by decide
    have h1 : ("A" : String) ≠ "" := by decide
    have h2 : length "A" < 2 := by decide
    simp [handleEnterPortal, h, h1, h2]
  · rw [enter_of_valid " Bo " s hBolen]
  · rw [enter_of_valid " Bo " s hBolen]
    exact hBo

theorem cardStatus_full (count : Nat) : cardStatus CONFIG count = Status.full ↔ 20 ≤ count := by
  simp only [cardStatus, CONFIG]
  split_ifs <;> simp <;> omega

theorem cardStatus_fewSlots (count : Nat) :
    cardStatus CONFIG count = Status.fewSlots ↔ 15 ≤ count ∧ count < 20 := by
  simp only [cardStatus, CONFIG]
  split_ifs <;> simp <;> omega

theorem cardStatus_available (count : Nat) :
    cardStatus CONFIG count = Status.available ↔ count < 15 := by
  simp only [cardStatus, CONFIG]
  split_ifs <;> simp <;> omega

/-- C9 (tier classification): for every count, the status that
`updateOptionCard` derives is full exactly when the count is at least 20,
few-slots exactly when it is at least 15 and below 20, and available exactly
when it is below 15; the value of `THRESHOLD_AVAILABLE` does not enter the
result, whatever the configuration; and the status class that `updateSummary`
gives a progress bar is the status of the card, for every count and every
option of every state. -/
theorem tier_classification (count : Nat) (s : AppState) (o : OptionId) (cfg : Config)
    (other : Nat) :
    (cardStatus CONFIG count = Status.full ↔ 20 ≤ count) ∧
      (cardStatus CONFIG count = Status.fewSlots ↔ 15 ≤ count ∧ count < 20) ∧
      (cardStatus CONFIG count = Status.available ↔ count < 15) ∧
      cardStatus { cfg with THRESHOLD_AVAILABLE := other } count = cardStatus cfg count ∧
      progressStatus { cfg with THRESHOLD_AVAILABLE := other } count =
        progressStatus cfg count ∧
      progressStatus CONFIG count = cardStatus CONFIG count ∧
      (updateOptionCard o s).status = cardStatus CONFIG (s.optionCounts.get o) ∧
      (updateSummary s).breakdown.map (fun row => row.status) =
        CONFIG.OPTIONS.map (fun optionId => (updateOptionCard optionId s).status) := by
  refine ⟨cardStatus_full count, cardStatus_fewSlots count, cardStatus_available count,
    rfl, rfl, rfl, rfl, ?_⟩
  simp [updateSummary, updateOptionCard, progressStatus, cardStatus, CONFIG]

theorem specPercentage_twenty (count : Nat) : specPercentage count 20 = 5 * (count : Int) := by
  have h : (100 * (count : ℚ)) / ((20 : Nat) : ℚ) + 1 / 2 = ((5 * (count : Int) : Int) : ℚ) + 1 / 2 := by
    push_cast
    ring
  unfold specPercentage
  rw [h, Int.floor_int_add]
  have hhalf : ⌊(1 / 2 : ℚ)⌋ = 0 := by
    rw [Int.floor_eq_iff]
    norm_num
  rw [hhalf, add_zero]

set_option exponentiation.threshold 4000 in
/-- The rounding model reproduces known binary64 values: `0.1` and `1/3` have
the significands `3602879701896397 * 2 ^ (-55)` and `6004799503160661 * 2 ^ (-54)`,
`0.07 * 100` is `7.000000000000001` (one unit in the last place above 7), and
`(11 / 20) * 100` is `55.00000000000001`, which `Math.round` takes to 55. -/
theorem binary64_examples :
    roundNearestEven 1 10 = 3602879701896397 * 2 ^ (1074 - 55) ∧
      roundNearestEven 1 3 = 6004799503160661 * 2 ^ (1074 - 54) ∧
      Binary64.mul (roundNearestEven 7 100) (Binary64.ofNat 100) =
        7 * 2 ^ 1074 + 2 ^ (1074 - 50) ∧
      Binary64.mul (Binary64.div (Binary64.ofNat 11) (Binary64.ofNat 20)) (Binary64.ofNat 100) =
        55 * 2 ^ 1074 + 2 ^ (1074 - 47) ∧
      mathRound (55 * 2 ^ 1074 + 2 ^ (1074 - 47)) = 55 ∧
      mathRound (5 * 2 ^ 1073) = 3 ∧ mathRound (5 * 2 ^ 1073 - 1) = 2 := by
  decide!

/-- With enough halvings allowed, `excessBits` brings the quotient below
`2 ^ 53` and, when it halves at all, not below `2 ^ 52`. -/
theorem excessBits_spec (fuel : Nat) :
    ∀ q : Nat, q < 2 ^ (53 + fuel) →
      q / 2 ^ excessBits fuel q < 2 ^ 53 ∧
        (excessBits fuel q = 0 ∨ 2 ^ 52 * 2 ^ excessBits fuel q ≤ q) := by
  induction fuel with
  | zero =>
    intro q hq
    have hk : excessBits 0 q = 0 := rfl
    rw [hk, Nat.pow_zero, Nat.div_one]
    exact ⟨hq, Or.inl rfl⟩
  | succ fuel ih =>
    intro q hq
    by_cases hsmall : q < 2 ^ 53
    · have hk : excessBits (fuel + 1) q = 0 := by simp only [excessBits, if_pos hsmall]
      rw [hk, Nat.pow_zero, Nat.div_one]
      exact ⟨hsmall, Or.inl rfl⟩
    · have hk : excessBits (fuel + 1) q = excessBits fuel (q / 2) + 1 := by
        simp only [excessBits, if_neg hsmall]
      rw [hk]
      have hhalf : q / 2 < 2 ^ (53 + fuel) := by
        have : 2 ^ (53 + (fuel + 1)) = 2 ^ (53 + fuel) * 2 := by
          rw [← Nat.add_assoc, Nat.pow_succ]
        rw [this] at hq
        exact Nat.div_lt_of_lt_mul (by rw [Nat.mul_comm]; exact hq)
      obtain ⟨h1, h2⟩ := ih (q / 2) hhalf
      have hpow : 2 ^ (excessBits fuel (q / 2) + 1) = 2 ^ excessBits fuel (q / 2) * 2 :=
        Nat.pow_succ _ _
      have hdiv : q / 2 ^ (excessBits fuel (q / 2) + 1) = q / 2 / 2 ^ excessBits fuel (q / 2) := by
        rw [hpow, Nat.mul_comm, Nat.div_div_eq_div_mul]
      refine ⟨by rw [hdiv]; exact h1, Or.inr ?_⟩
      have hq53 : 2 ^ 53 ≤ q := Nat.not_lt.mp hsmall
      rw [hpow]
      have hle : 2 * (q / 2) ≤ q := Nat.mul_div_le q 2
      rcases h2 with h2 | h2
      · rw [h2]
        norm_num
        norm_num at hq53
        omega
      · generalize 2 ^ excessBits fuel (q / 2) = e at h2 ⊢
        norm_num at h2 ⊢
        omega

theorem excessBits_self (q : Nat) :
    q / 2 ^ excessBits q q < 2 ^ 53 ∧ (excessBits q q = 0 ∨ 2 ^ 52 * 2 ^ excessBits q q ≤ q) := by
  apply excessBits_spec
  calc q < 2 ^ q := Nat.lt_two_pow q
    _ ≤ 2 ^ (53 + q) := Nat.pow_le_pow_right (by decide) (Nat.le_add_left _ _)

/-- Rounding a quotient to the nearest integer, ties to even, moves it by at
most half a unit. -/
theorem round_step (total u m r : Nat) (hsum : u * m + r = total) (hr : r < u) :
    2 * (u * (if 2 * r > u ∨ (2 * r = u ∧ m % 2 = 1) then m + 1 else m)) ≤ 2 * total + u ∧
      2 * total ≤ 2 * (u * (if 2 * r > u ∨ (2 * r = u ∧ m % 2 = 1) then m + 1 else m)) + u := by
  split_ifs with hcond
  · rw [Nat.mul_add, Nat.mul_one]
    generalize u * m = mu at hsum ⊢
    omega
  · generalize u * m = mu at hsum ⊢
    omega

set_option exponentiation.threshold 2000 in
/-- The result of `roundNearestEven` is within half a unit of `n / d`. -/
theorem roundNearestEven_error (n d : Nat) (hd : 0 < d) :
    ∃ e : Nat, (e = 1 ∨ 2 ^ 52 * e ≤ n * 2 ^ 1074 / d) ∧
      2 * (roundNearestEven n d * d) ≤ 2 * (n * 2 ^ 1074) + d * e ∧
      2 * (n * 2 ^ 1074) ≤ 2 * (roundNearestEven n d * d) + d * e := by
  obtain ⟨_, hk⟩ := excessBits_self (n * 2 ^ 1074 / d)
  refine ⟨2 ^ excessBits (n * 2 ^ 1074 / d) (n * 2 ^ 1074 / d), ?_, ?_⟩
  · rcases hk with hk | hk
    · left; rw [hk]; rfl
    · right; exact hk
  · have hu : 0 < d * 2 ^ excessBits (n * 2 ^ 1074 / d) (n * 2 ^ 1074 / d) :=
      Nat.mul_pos hd (Nat.pow_pos (by decide))
    have hstep := round_step (n * 2 ^ 1074)
      (d * 2 ^ excessBits (n * 2 ^ 1074 / d) (n * 2 ^ 1074 / d))
      (n * 2 ^ 1074 / (d * 2 ^ excessBits (n * 2 ^ 1074 / d) (n * 2 ^ 1074 / d)))
      (n * 2 ^ 1074 % (d * 2 ^ excessBits (n * 2 ^ 1074 / d) (n * 2 ^ 1074 / d)))
      (Nat.div_add_mod _ _) (Nat.mod_lt _ hu)
    have hshape : ∀ x e : Nat, x * e * d = d * e * x := by intro x e; ring
    have hround : roundNearestEven n d * d =
        d * 2 ^ excessBits (n * 2 ^ 1074 / d) (n * 2 ^ 1074 / d) *
          (if 2 * (n * 2 ^ 1074 % (d * 2 ^ excessBits (n * 2 ^ 1074 / d) (n * 2 ^ 1074 / d))) >
                d * 2 ^ excessBits (n * 2 ^ 1074 / d) (n * 2 ^ 1074 / d) ∨
              (2 * (n * 2 ^ 1074 % (d * 2 ^ excessBits (n * 2 ^ 1074 / d) (n * 2 ^ 1074 / d))) =
                  d * 2 ^ excessBits (n * 2 ^ 1074 / d) (n * 2 ^ 1074 / d) ∧
                n * 2 ^ 1074 / (d * 2 ^ excessBits (n * 2 ^ 1074 / d) (n * 2 ^ 1074 / d)) % 2 = 1)
            then n * 2 ^ 1074 / (d * 2 ^ excessBits (n * 2 ^ 1074 / d) (n * 2 ^ 1074 / d)) + 1
            else n * 2 ^ 1074 / (d * 2 ^ excessBits (n * 2 ^ 1074 / d) (n * 2 ^ 1074 / d))) :=
      hshape _ _
    rw [hround]
    exact hstep

set_option exponentiation.threshold 2000 in
theorem percentage_arith (c a b e1 e2 : Nat) (hc : c ≤ 2 ^ 48)
    (h1 : e1 = 1 ∨ 2 ^ 52 * e1 ≤ c * 2 ^ 1074 / 20)
    (h2 : 2 * (a * 20) ≤ 2 * (c * 2 ^ 1074) + 20 * e1)
    (h3 : 2 * (c * 2 ^ 1074) ≤ 2 * (a * 20) + 20 * e1)
    (h4 : e2 = 1 ∨ 2 ^ 52 * e2 ≤ a * 100)
    (h5 : 2 * b ≤ 2 * (a * 100) + e2) (h6 : 2 * (a * 100) ≤ 2 * b + e2) :
    (2 * b + 2 ^ 1074) / 2 ^ 1075 = 5 * c := by
  norm_num at *
  omega

set_option exponentiation.threshold 2000 in
/-- For every count up to `2 ^ 48` the binary64 computation
`Math.round((count / 20) * 100)` gives exactly `5 * count`. -/
theorem percentage_exact (count : Nat) (hcount : count ≤ 2 ^ 48) :
    percentage count = 5 * count := by
  have hP : 0 < 2 ^ 1074 := Nat.pow_pos (by decide)
  obtain ⟨e1, he1, hup1, hlow1⟩ :=
    roundNearestEven_error (count * 2 ^ 1074) (20 * 2 ^ 1074) (Nat.mul_pos (by decide) hP)
  obtain ⟨e2, he2, hup2, hlow2⟩ :=
    roundNearestEven_error
      (roundNearestEven (count * 2 ^ 1074) (20 * 2 ^ 1074) * (100 * 2 ^ 1074))
      (2 ^ 1074 * 2 ^ 1074) (Nat.mul_pos hP hP)
  generalize hb : roundNearestEven
      (roundNearestEven (count * 2 ^ 1074) (20 * 2 ^ 1074) * (100 * 2 ^ 1074))
      (2 ^ 1074 * 2 ^ 1074) = b at he2 hup2 hlow2
  generalize ha : roundNearestEven (count * 2 ^ 1074) (20 * 2 ^ 1074) = a at he2 hup2 hlow2 hb he1 hup1 hlow1
  have hq1 : count * 2 ^ 1074 * 2 ^ 1074 / (20 * 2 ^ 1074) = count * 2 ^ 1074 / 20 :=
    Nat.mul_div_mul_right _ _ hP
  have hq2 : a * (100 * 2 ^ 1074) * 2 ^ 1074 / (2 ^ 1074 * 2 ^ 1074) = a * 100 := by
    have : a * (100 * 2 ^ 1074) * 2 ^ 1074 = a * 100 * (2 ^ 1074 * 2 ^ 1074) := by ring
    rw [this]
    exact Nat.mul_div_cancel _ (Nat.mul_pos hP hP)
  rw [hq1] at he1
  rw [hq2] at he2
  have h2 : 2 * (a * 20) ≤ 2 * (count * 2 ^ 1074) + 20 * e1 := by
    apply Nat.le_of_mul_le_mul_right _ hP
    calc 2 * (a * 20) * 2 ^ 1074 = 2 * (a * (20 * 2 ^ 1074)) := by ring
      _ ≤ 2 * (count * 2 ^ 1074 * 2 ^ 1074) + 20 * 2 ^ 1074 * e1 := hup1
      _ = (2 * (count * 2 ^ 1074) + 20 * e1) * 2 ^ 1074 := by ring
  have h3 : 2 * (count * 2 ^ 1074) ≤ 2 * (a * 20) + 20 * e1 := by
    apply Nat.le_of_mul_le_mul_right _ hP
    calc 2 * (count * 2 ^ 1074) * 2 ^ 1074 = 2 * (count * 2 ^ 1074 * 2 ^ 1074) := by ring
      _ ≤ 2 * (a * (20 * 2 ^ 1074)) + 20 * 2 ^ 1074 * e1 := hlow1
      _ = (2 * (a * 20) + 20 * e1) * 2 ^ 1074 := by ring
  have h5 : 2 * b ≤ 2 * (a * 100) + e2 := by
    apply Nat.le_of_mul_le_mul_right _ (Nat.mul_pos hP hP)
    calc 2 * b * (2 ^ 1074 * 2 ^ 1074) = 2 * (b * (2 ^ 1074 * 2 ^ 1074)) := by ring
      _ ≤ 2 * (a * (100 * 2 ^ 1074) * 2 ^ 1074) + 2 ^ 1074 * 2 ^ 1074 * e2 := hup2
      _ = (2 * (a * 100) + e2) * (2 ^ 1074 * 2 ^ 1074) := by ring
  have h6 : 2 * (a * 100) ≤ 2 * b + e2 := by
    apply Nat.le_of_mul_le_mul_right _ (Nat.mul_pos hP hP)
    calc 2 * (a * 100) * (2 ^ 1074 * 2 ^ 1074)
        = 2 * (a * (100 * 2 ^ 1074) * 2 ^ 1074) := by ring
      _ ≤ 2 * (b * (2 ^ 1074 * 2 ^ 1074)) + 2 ^ 1074 * 2 ^ 1074 * e2 := hlow2
      _ = (2 * b + e2) * (2 ^ 1074 * 2 ^ 1074) := by ring
  have hgoal := percentage_arith count a b e1 e2 hcount he1 h2 h3 he2 h5 h6
  have hunfold : percentage count = (2 * b + 2 ^ 1074) / 2 ^ 1075 := by
    rw [← hb, ← ha]
    rfl
  rw [hunfold]
  exact hgoal

/-- C10 (summary statistics): for every state, `updateSummary` computes
`totalSelections` as the sum of the three counts and `availableSlots` as 60
minus that sum, which is the number of options times the capacity minus the
sum and is not negative when every count is at most 20; the rows of the
breakdown carry each option's count and `Math.round((count / 20) * 100)`; that
percentage, computed in binary64 arithmetic, is 5 times the count and equals
the specification's round(100 × count / 20) for every count up to `2 ^ 48`,
and it lies between 0 and 100 for every count from 0 to 20. -/
theorem summary_statistics (s : AppState) (count : Nat) :
    (updateSummary s).totalSelections =
        s.optionCounts.get OptionId.optionA + s.optionCounts.get OptionId.optionB +
          s.optionCounts.get OptionId.optionC ∧
      (updateSummary s).availableSlots = 60 - ((updateSummary s).totalSelections : Int) ∧
      (updateSummary s).availableSlots =
        ((CONFIG.OPTIONS.length * CONFIG.MAX_SELECTIONS_PER_OPTION : Nat) : Int) -
          ((updateSummary s).totalSelections : Int) ∧
      (WithinCapacity s → 0 ≤ (updateSummary s).availableSlots) ∧
      (updateSummary s).breakdown.map (fun row => row.count) =
        CONFIG.OPTIONS.map (fun optionId => s.optionCounts.get optionId) ∧
      (updateSummary s).breakdown.map (fun row => row.percentage) =
        CONFIG.OPTIONS.map (fun optionId => percentage (s.optionCounts.get optionId)) ∧
      (count ≤ 2 ^ 48 →
        percentage count = 5 * count ∧
          (percentage count : Int) = specPercentage count CONFIG.MAX_SELECTIONS_PER_OPTION) ∧
      (count ≤ 20 → 0 ≤ percentage count ∧ percentage count ≤ 100) := by
  have htotal : (updateSummary s).totalSelections =
      s.optionCounts.get OptionId.optionA + s.optionCounts.get OptionId.optionB +
        s.optionCounts.get OptionId.optionC := by
    simp [updateSummary, CONFIG]
  refine ⟨htotal, rfl, rfl, ?_, ?_, ?_, ?_, ?_⟩
  · intro hcap
    have hA := hcap OptionId.optionA
    have hB := hcap OptionId.optionB
    have hC := hcap OptionId.optionC
    have hmax : CONFIG.MAX_SELECTIONS_PER_OPTION = 20 := rfl
    rw [hmax] at hA hB hC
    have hslots : (updateSummary s).availableSlots =
        60 - ((updateSummary s).totalSelections : Int) := rfl
    rw [hslots, htotal]
    omega
  · simp [updateSummary, CONFIG]
  · simp [updateSummary, CONFIG]
  · intro hcount
    have hfive : percentage count = 5 * count := percentage_exact count hcount
    have hmax : CONFIG.MAX_SELECTIONS_PER_OPTION = 20 := rfl
    refine ⟨hfive, ?_⟩
    rw [hmax, specPercentage_twenty, hfive]
    push_cast
    rfl
  · intro hcount
    have hfive : percentage count = 5 * count :=
      percentage_exact count (le_trans hcount (by decide))
    refine ⟨Nat.zero_le _, ?_⟩
    rw [hfive]
    omega

theorem checkIfAllFull_iff (s : AppState) :
    checkIfAllFull s = true ↔
      20 ≤ s.optionCounts.optionA ∧ 20 ≤ s.optionCounts.optionB ∧ 20 ≤ s.optionCounts.optionC := by
  simp [checkIfAllFull, CONFIG, OptionCounts.get]

/-- C11 (all options full): for every state, the `allFull` of `checkIfAllFull`
is true exactly when each of the three options has a count of 20 or more; in
every state whose counts are all at most 20 it is true exactly when the
`availableSlots` of `updateSummary` is 0; and (Scenario C) when the three counts
are 20 each, `allFull` is true and `availableSlots` is 0. -/
theorem allOptionsFull (s : AppState) :
    (checkIfAllFull s = true ↔ ∀ o, 20 ≤ s.optionCounts.get o) ∧
      (WithinCapacity s →
        (checkIfAllFull s = true ↔ (updateSummary s).availableSlots = 0)) ∧
      (s.optionCounts = { optionA := 20, optionB := 20, optionC := 20 } →
        checkIfAllFull s = true ∧ (updateSummary s).availableSlots = 0) := by
  have hslots : (updateSummary s).availableSlots =
      60 - ((s.optionCounts.optionA + s.optionCounts.optionB + s.optionCounts.optionC : Nat) :
        Int) := by
    have h : (updateSummary s).availableSlots =
        60 - ((updateSummary s).totalSelections : Int) := rfl
    rw [h, updateSummary_totalSelections]
  refine ⟨?_, ?_, ?_⟩
  · rw [checkIfAllFull_iff]
    constructor
    · rintro ⟨hA, hB, hC⟩ o
      cases o
      · exact hA
      · exact hB
      · exact hC
    · intro h
      exact ⟨h OptionId.optionA, h OptionId.optionB, h OptionId.optionC⟩
  · intro hcap
    have hA : s.optionCounts.optionA ≤ 20 := hcap OptionId.optionA
    have hB : s.optionCounts.optionB ≤ 20 := hcap OptionId.optionB
    have hC : s.optionCounts.optionC ≤ 20 := hcap OptionId.optionC
    rw [checkIfAllFull_iff, hslots]
    constructor
    · rintro ⟨kA, kB, kC⟩
      omega
    · intro h
      omega
  · intro hcounts
    rw [checkIfAllFull_iff, hslots, hcounts]
    exact ⟨⟨Nat.le_refl _, Nat.le_refl _, Nat.le_refl _⟩, by decide⟩

/-- C12 (the flag is monotone and gates every selection): neither handler, in
any state, takes `hasUserSelected` from true to false; in every reachable
state in which the flag is false `userSelections` is empty; hence in every
reachable state `userSelections` has at most one key and the three counts add
up to at most 1; and once a click has been accepted, in any state, every later
click is rejected as already selected and changes nothing, whatever names are
submitted in between. -/
theorem flag_monotone_and_gating (s : AppState) (value : String) (o o' : OptionId)
    (actions later : List Action) :
    (s.hasUserSelected = true → (handleEnterPortal value s).2.hasUserSelected = true) ∧
      (s.hasUserSelected = true → (handleOptionSelection o s).2.hasUserSelected = true) ∧
      ((run appState actions).hasUserSelected = false →
        (run appState actions).userSelections = []) ∧
      (objectKeys (run appState actions).userSelections).length ≤ 1 ∧
      (run appState actions).optionCounts.optionA + (run appState actions).optionCounts.optionB +
        (run appState actions).optionCounts.optionC ≤ 1 ∧
      ((handleOptionSelection o s).1 = SelectOutcome.accepted →
        handleOptionSelection o' (run (handleOptionSelection o s).2 later) =
          (SelectOutcome.alreadySelected, run (handleOptionSelection o s).2 later) ∧
        (run (handleOptionSelection o s).2 later).optionCounts =
          (handleOptionSelection o s).2.optionCounts ∧
        (run (handleOptionSelection o s).2 later).userSelections =
          (handleOptionSelection o s).2.userSelections) := by
  have hcons := consistent_run actions
  refine ⟨enter_flag_of_flag value s, ?_, ?_, ?_, ?_, ?_⟩
  · intro hflag
    rw [select_of_flag o s hflag]
    exact hflag
  · intro hflag
    exact (hcons.fresh hflag).1
  · simp only [objectKeys, List.length_map]
    exact hcons.single
  · rw [hcons.conserved]
    exact hcons.single
  · intro hacc
    have hflag : (handleOptionSelection o s).2.hasUserSelected = true := by
      cases hpre : s.hasUserSelected with
      | true =>
        rw [select_of_flag o s hpre] at hacc
        exact SelectOutcome.noConfusion hacc
      | false =>
        rcases Nat.lt_or_ge (s.optionCounts.get o) CONFIG.MAX_SELECTIONS_PER_OPTION
          with hfree | hfull
        · rw [select_of_free o s hpre hfree]
        · rw [select_of_full o s hpre hfull] at hacc
          exact SelectOutcome.noConfusion hacc
    obtain ⟨h1, h2, h3⟩ := run_of_flag later _ hflag
    exact ⟨select_of_flag o' _ h1, h3, h2⟩

end Hypervision
